import Mathlib

/-!
Verification of the analyze-action orchestrator of the codeql-action step.

The development shallowly embeds the control flow of `src/analyze-action.ts`:
external collaborators (the analysis engine, the hosting API, the filesystem,
the input/environment accessors) are modelled as fields of an environment
record holding the outcome each call would produce, and the orchestrator is a
pure function from that environment to the list of observable events it
performs together with its final outcome.  The commit-reference resolution
algorithm (`getRef`) is modelled from the specification, since only its tests
are part of the analyzed sources.
-/

/-! ## Reference resolution (RefResolver) -/

/-- Modelled from the spec: the literal characters of the string
`refs/pull/` with which every pull-request ref begins. -/
def refsPullChars : List Char :=
  ['r', 'e', 'f', 's', '/', 'p', 'u', 'l', 'l', '/']

/-- Modelled from the spec: the literal characters of the suffix `/merge`. -/
def mergeSuffixChars : List Char := ['/', 'm', 'e', 'r', 'g', 'e']

/-- Modelled from the spec: the literal characters of the suffix `/head`. -/
def headSuffixChars : List Char := ['/', 'h', 'e', 'a', 'd']

/-- Modelled from the spec: the pull-request merge ref `refs/pull/<n>/merge`
for a pull-request number given by its digit characters `n`. -/
def mergeRefOf (n : List Char) : List Char :=
  refsPullChars ++ n ++ mergeSuffixChars

/-- Modelled from the spec: the pull-request head ref `refs/pull/<n>/head`
for a pull-request number given by its digit characters `n`. -/
def headRefOf (n : List Char) : List Char :=
  refsPullChars ++ n ++ headSuffixChars

/-- Modelled from the spec: split a character list into its longest leading
run of digits and the remainder. -/
def takeDigits : List Char → List Char × List Char
  | [] => ([], [])
  | c :: cs =>
    if c.isDigit then
      let p := takeDigits cs
      (c :: p.1, p.2)
    else ([], c :: cs)

/-- Modelled from the spec: remove the given leading characters from a list,
failing when the list does not begin with them. -/
def stripLeading : List Char → List Char → Option (List Char)
  | [], r => some r
  | _ :: _, [] => none
  | p :: ps, c :: cs => if c = p then stripLeading ps cs else none

/-- Modelled from the spec: recognise a declared ref of the shape
`refs/pull/<n>/merge` and return the digit characters `<n>`. -/
def parseMergeRef (r : List Char) : Option (List Char) :=
  match stripLeading refsPullChars r with
  | none => none
  | some rest =>
    match takeDigits rest with
    | ([], _) => none
    | (ds, tail) => if tail = mergeSuffixChars then some ds else none

/-- Error raised by reference resolution. -/
inductive RefError where
  | invalidState
deriving DecidableEq, Repr

/-- Modelled from the spec: `resolveRef(declaredRef, checkedOutOid,
currentOidProvider)` — the `getRef` algorithm of actions-util, whose
implementation is not among the analyzed sources (only its tests are).
Fails on an empty declared ref; for a `refs/pull/<n>/merge` ref it consults
the current commit oid and falls back to `refs/pull/<n>/head` when the
workspace has moved past the synthetic merge commit; any other ref is
returned unchanged. -/
def resolveRef (declaredRef : List Char) (checkedOutOid : List Char)
    (currentOidProvider : Unit → List Char) : Except RefError (List Char) :=
  if declaredRef = [] then
    .error RefError.invalidState
  else
    match parseMergeRef declaredRef with
    | none => .ok declaredRef
    | some n =>
      if currentOidProvider () = checkedOutOid then .ok declaredRef
      else .ok (headRefOf n)

theorem takeDigits_append_mergeSuffix (n : List Char)
    (h : ∀ c ∈ n, c.isDigit = true) :
    takeDigits (n ++ mergeSuffixChars) = (n, mergeSuffixChars) := by
  induction n with
  | nil => simp [takeDigits, mergeSuffixChars]
  | cons c cs ih =>
    have hc : c.isDigit = true := h c (List.mem_cons_self c cs)
    have hcs : ∀ x ∈ cs, x.isDigit = true := fun x hx => h x (List.mem_cons_of_mem c hx)
    simp [takeDigits, hc, ih hcs]

theorem stripLeading_append (p x : List Char) :
    stripLeading p (p ++ x) = some x := by
  induction p with
  | nil => simp [stripLeading]
  | cons c cs ih => simp [stripLeading, ih]

theorem parseMergeRef_mergeRefOf (n : List Char) (hne : n ≠ [])
    (h : ∀ c ∈ n, c.isDigit = true) :
    parseMergeRef (mergeRefOf n) = some n := by
  unfold parseMergeRef
  rw [show mergeRefOf n = refsPullChars ++ (n ++ mergeSuffixChars) by
    simp [mergeRefOf]]
  rw [stripLeading_append]
  simp only [takeDigits_append_mergeSuffix n h]
  cases n with
  | nil => exact absurd rfl hne
  | cons c cs => simp

theorem mergeRefOf_ne_nil (n : List Char) : mergeRefOf n ≠ [] := by
  simp [mergeRefOf, refsPullChars]

/-- Claim C2: for every declared ref matching the pull-request merge pattern
`refs/pull/<n>/merge`, if the commit oid returned by the current-oid provider
equals the recorded checked-out oid, resolution returns the declared merge ref
unchanged; if the two oids differ, it returns the corresponding
`refs/pull/<n>/head` ref. -/
theorem resolveRef_merge_ref (n declaredRef checkedOutOid : List Char)
    (cur : Unit → List Char) (hne : n ≠ []) (hdig : ∀ c ∈ n, c.isDigit = true)
    (hdecl : declaredRef = mergeRefOf n) :
    (cur () = checkedOutOid →
      resolveRef declaredRef checkedOutOid cur = .ok declaredRef) ∧
    (cur () ≠ checkedOutOid →
      resolveRef declaredRef checkedOutOid cur = .ok (headRefOf n)) := by
  subst hdecl
  constructor
  · intro heq
    simp [resolveRef, mergeRefOf_ne_nil, parseMergeRef_mergeRefOf n hne hdig, heq]
  · intro hne2
    simp [resolveRef, mergeRefOf_ne_nil, parseMergeRef_mergeRefOf n hne hdig, hne2]

/-- Witness for C2 at the concrete inputs of the repository's own tests:
`refs/pull/1/merge` with checked-out oid `"a"*40` and current oid `"b"*40`
resolves to `refs/pull/1/head`. -/
theorem resolveRef_merge_ref_witness :
    (['1'] ≠ ([] : List Char)) ∧ (∀ c ∈ ['1'], c.isDigit = true) ∧
    (mergeRefOf ['1'] = mergeRefOf ['1']) ∧
    ((fun _ : Unit => List.replicate 40 'b') () ≠ List.replicate 40 'a') ∧
    resolveRef (mergeRefOf ['1']) (List.replicate 40 'a')
      (fun _ => List.replicate 40 'b') = .ok (headRefOf ['1']) :=
  ⟨by decide, by decide, rfl, by decide,
    (resolveRef_merge_ref ['1'] (mergeRefOf ['1']) (List.replicate 40 'a')
      (fun _ => List.replicate 40 'b') (by decide) (by decide) rfl).2 (by decide)⟩

/-- Claim C3: resolution of an empty declared reference always fails with the
invalid-state error, for every checked-out oid and current-oid provider. -/
theorem resolveRef_empty_ref (checkedOutOid : List Char)
    (cur : Unit → List Char) :
    resolveRef [] checkedOutOid cur = .error RefError.invalidState := by
  simp [resolveRef]

/-! ## Status records (StatusReporter) -/

/-- The per-language analysis statistics (`QueriesStatusReport`): the field
relevant to status computation is `analyze_failure_language`, present exactly
when some language's analysis failed. -/
structure QueriesStatusReport where
  analyze_failure_language : Option String
deriving DecidableEq, Repr

/-- The result-upload statistics (`UploadStatusReport`), abstracted to a
representative field. -/
structure UploadStatusReport where
  raw_upload_size_bytes : Option Nat
deriving DecidableEq, Repr

/-- The merged statistics (`AnalysisStatusReport`): query statistics, plus
upload statistics when the result upload ran. -/
structure AnalysisStatusReport where
  queries : QueriesStatusReport
  upload : Option UploadStatusReport
deriving DecidableEq, Repr

/-- Errors thrown inside the orchestrator's guarded region: a
`CodeQLAnalysisError` carries partial query statistics; any other error
carries only its message. -/
inductive RunError where
  | codeqlAnalysis (qs : QueriesStatusReport) (msg : String)
  | other (msg : String)
deriving DecidableEq, Repr

/-- The message of a run error (`error.message`). -/
def RunError.message : RunError → String
  | .codeqlAnalysis _ m => m
  | .other m => m

/-- A status record: the base built by `createStatusReportBase` (stage name,
status, optional error message) merged with whatever statistics are
available. -/
structure StatusRecord where
  stage : String
  status : String
  errorMessage : Option String
  stats : Option AnalysisStatusReport
deriving DecidableEq, Repr

/-- The record built by `sendStatusReport` of analyze-action: status is
`"failure"` when the statistics carry an `analyze_failure_language` or an
error was supplied, `"success"` otherwise; the stage name is always
`"finish"`. -/
def sendStatusReportRecord (stats : Option AnalysisStatusReport)
    (error : Option RunError) : StatusRecord :=
  { stage := "finish"
    status :=
      if ((stats.bind fun s => s.queries.analyze_failure_language).isSome
          || error.isSome) = true
      then "failure" else "success"
    errorMessage := error.map RunError.message
    stats := stats }

/-- Claim C1: the final status record's status is `"failure"` if and only if
an error was supplied or the statistics carry an `analyze_failure_language`;
in every other case, for any combination of statistics and absence of error,
the status is `"success"`. -/
theorem sendStatusReportRecord_status_iff (stats : Option AnalysisStatusReport)
    (error : Option RunError) :
    ((sendStatusReportRecord stats error).status = "failure" ↔
      (error.isSome = true ∨
        (stats.bind fun s => s.queries.analyze_failure_language).isSome = true)) ∧
    ((sendStatusReportRecord stats error).status = "success" ↔
      ¬(error.isSome = true ∨
        (stats.bind fun s => s.queries.analyze_failure_language).isSome = true)) := by
  unfold sendStatusReportRecord
  by_cases h1 : (stats.bind fun s => s.queries.analyze_failure_language).isSome = true
  · simp [h1]
  · by_cases h2 : error.isSome = true
    · simp [h1, h2]
    · simp [h1, h2]

/-! ## Database upload (DatabaseUploader) -/

/-- The hosting endpoint variant (`util.GitHubVariant`); the uploader only
distinguishes the public dotcom product from everything else. -/
inductive GitHubVariant where
  | dotcom
  | other
deriving DecidableEq, Repr

/-- The configuration produced by the earlier init step (`Config`): the
configured languages and the hosting variant it was resolved against. -/
structure Config where
  languages : List String
  gitHubVariant : GitHubVariant
deriving DecidableEq, Repr

/-- Outcome of the preflight database existence probe
(`GET .../code-scanning/databases`). -/
inductive ProbeOutcome where
  | ok
  | httpError (status : Nat)
  | otherError (msg : String)
deriving DecidableEq, Repr

/-- Environment of `uploadDatabases`: the input flag, the default-branch
check, the probe outcome, and the per-language outcomes of bundling the
database, reading the bundle file, and the upload request. -/
structure DbEnv where
  uploadDatabaseInput : String
  isDefaultBranch : Bool
  probe : ProbeOutcome
  databaseBundle : String → Except String Unit
  readFile : String → Except String Unit
  uploadRequest : String → Except String Unit

/-- Observable events of the orchestrator: status-record transmissions,
collaborator invocations, and debug-log output. -/
inductive Event where
  | sendStatus (r : StatusRecord)
  | analyze
  | cleanup (level : String)
  | setOutput (langs : List String)
  | uploadResults
  | probeDatabases
  | bundleDatabase (lang : String)
  | uploadDatabase (lang : String) (succeeded : Bool)
  | debugLog (lang : String) (file : String)
  | setFailed (msg : String)
deriving DecidableEq, Repr

/-- The per-language loop of `uploadDatabases`: bundle the database (an
uncaught failure propagates), read the bundle file (likewise uncaught), then
issue the upload request, whose failure is caught and only logged so the loop
continues with the next language. -/
def uploadLangLoop (env : DbEnv) : List String → List Event × Except String Unit
  | [] => ([], .ok ())
  | lang :: rest =>
    match env.databaseBundle lang with
    | .error e => ([Event.bundleDatabase lang], .error e)
    | .ok _ =>
      match env.readFile lang with
      | .error e => ([Event.bundleDatabase lang], .error e)
      | .ok _ =>
        let ok : Bool := match env.uploadRequest lang with
          | .ok _ => true
          | .error _ => false
        let p := uploadLangLoop env rest
        (Event.bundleDatabase lang :: Event.uploadDatabase lang ok :: p.1, p.2)

/-- `uploadDatabases` of analyze-action: three short-circuiting eligibility
checks, a preflight probe whose failure (of any kind) degrades to a skip, and
then the per-language upload loop. -/
def uploadDatabases (env : DbEnv) (config : Config) :
    List Event × Except String Unit :=
  if env.uploadDatabaseInput ≠ "true" then ([], .ok ())
  else if config.gitHubVariant ≠ GitHubVariant.dotcom then ([], .ok ())
  else if env.isDefaultBranch = false then ([], .ok ())
  else
    match env.probe with
    | ProbeOutcome.ok =>
      let p := uploadLangLoop env config.languages
      (Event.probeDatabases :: p.1, p.2)
    | _ => ([Event.probeDatabases], .ok ())

/-! ## Debug log walking (the finally block) -/

/-- A log directory tree as the walker observes it: a directory read that
throws, the end of a directory, a file entry (whose content read may throw),
or a subdirectory entry. -/
inductive LogFs where
  | readError (msg : String)
  | nil
  | fileEntry (name : String) (content : Except String String) (rest : LogFs)
  | dirEntry (name : String) (sub : LogFs) (rest : LogFs)

/-- `walkLogFiles`: stream every file of the tree in order, recursing into
subdirectories; a failing directory read or file read throws out of the
walk. -/
def walkLogFiles (lang : String) : LogFs → List Event × Except String Unit
  | .readError msg => ([], .error msg)
  | .nil => ([], .ok ())
  | .fileEntry name content rest =>
    match content with
    | .error e => ([Event.debugLog lang name], .error e)
    | .ok _ =>
      let p := walkLogFiles lang rest
      (Event.debugLog lang name :: p.1, p.2)
  | .dirEntry _ sub rest =>
    match walkLogFiles lang sub with
    | (evs, .error e) => (evs, .error e)
    | (evs, .ok _) =>
      let p := walkLogFiles lang rest
      (evs ++ p.1, p.2)

/-! ## The run orchestrator -/

/-- Environment of `run`: the outcome every external collaborator would
produce. -/
structure RunEnv where
  sendContinue : StatusRecord → Bool
  getConfig : Option Config
  runAnalyze : Except RunError QueriesStatusReport
  cleanupLevel : Option String
  runCleanup : Except String Unit
  uploadInput : String
  uploadFromActions : Except String UploadStatusReport
  dbEnv : DbEnv
  debugMode : Bool
  logFs : String → LogFs

/-- The record sent at the starting milestone:
`createStatusReportBase("finish", "starting", startedAt)`. -/
def startingRecord : StatusRecord :=
  { stage := "finish", status := "starting", errorMessage := none, stats := none }

/-- The effective cleanup level: the optional input, with an absent or empty
value defaulting to `"brutal"`. -/
def cleanupLevelValue : Option String → String
  | none => "brutal"
  | some l => if l = "" then "brutal" else l

/-- Result of the guarded region of `run` (the try block together with the
points at which an error escapes to the catch handler). -/
inductive BodyResult where
  | abort
  | thrown (e : RunError) (statsAtThrow : Option AnalysisStatusReport)
      (config : Option Config)
  | finished (stats : Option AnalysisStatusReport) (config : Config)

/-- The message of the error thrown when the configuration provider returns
nothing. -/
def configNotFoundMessage : String :=
  "Config file could not be found at expected location. Has the 'init' action been called?"

/-- The try block of `run`: the gating starting record, configuration
loading, analysis, optional cleanup, the db-locations output, the optional
result upload, and the database upload; each fallible step routes its error
to the catch handler together with the statistics known at the throw
point. -/
def runBody (env : RunEnv) : List Event × BodyResult :=
  let ev0 : List Event := [Event.sendStatus startingRecord]
  if env.sendContinue startingRecord = false then (ev0, BodyResult.abort)
  else
    match env.getConfig with
    | none => (ev0, BodyResult.thrown (RunError.other configNotFoundMessage) none none)
    | some config =>
      let ev1 := ev0 ++ [Event.analyze]
      match env.runAnalyze with
      | .error e => (ev1, BodyResult.thrown e none (some config))
      | .ok queriesStats =>
        let cleanupStep : List Event × Option RunError :=
          if env.cleanupLevel ≠ some "none" then
            match env.runCleanup with
            | .error m =>
              ([Event.cleanup (cleanupLevelValue env.cleanupLevel)],
                some (RunError.other m))
            | .ok _ => ([Event.cleanup (cleanupLevelValue env.cleanupLevel)], none)
          else ([], none)
        match cleanupStep with
        | (cevs, some e) => (ev1 ++ cevs, BodyResult.thrown e none (some config))
        | (cevs, none) =>
          let ev2 := ev1 ++ cevs ++ [Event.setOutput config.languages]
          if env.uploadInput = "true" then
            match env.uploadFromActions with
            | .error m =>
              (ev2 ++ [Event.uploadResults],
                BodyResult.thrown (RunError.other m) none (some config))
            | .ok us =>
              let stats := some { queries := queriesStats, upload := some us }
              let p := uploadDatabases env.dbEnv config
              match p.2 with
              | .error m =>
                (ev2 ++ [Event.uploadResults] ++ p.1,
                  BodyResult.thrown (RunError.other m) stats (some config))
              | .ok _ =>
                (ev2 ++ [Event.uploadResults] ++ p.1,
                  BodyResult.finished stats config)
          else
            let stats := some { queries := queriesStats, upload := none }
            let p := uploadDatabases env.dbEnv config
            match p.2 with
            | .error m =>
              (ev2 ++ p.1, BodyResult.thrown (RunError.other m) stats (some config))
            | .ok _ => (ev2 ++ p.1, BodyResult.finished stats config)

/-- The statistics the catch handler reports: a `CodeQLAnalysisError`'s
partial query statistics override whatever was known; any other error keeps
the statistics from the throw point. -/
def catchStats (e : RunError) (statsAtThrow : Option AnalysisStatusReport) :
    Option AnalysisStatusReport :=
  match e with
  | .codeqlAnalysis qs _ => some { queries := qs, upload := none }
  | .other _ => statsAtThrow

/-- The debug-log walk of the finally block, iterated over every configured
language; a throw stops the iteration and escapes. -/
def debugWalkAll (env : RunEnv) : List String → List Event × Except String Unit
  | [] => ([], .ok ())
  | l :: rest =>
    match walkLogFiles l (env.logFs l) with
    | (evs, .error e) => (evs, .error e)
    | (evs, .ok _) =>
      let p := debugWalkAll env rest
      (evs ++ p.1, p.2)

/-- The finally block of `run`: the debug-log walk, guarded on debug mode
being active and the configuration having been loaded. -/
def runFinally (env : RunEnv) (config : Option Config) :
    List Event × Except String Unit :=
  match config with
  | none => ([], .ok ())
  | some c =>
    if env.debugMode then debugWalkAll env c.languages else ([], .ok ())

/-- Terminal outcome of `run`: early return at the starting milestone, return
from the catch handler, normal completion, or an exception escaping `run`
(possible only from the finally block). -/
inductive RunOutcome where
  | aborted
  | failed
  | completed
  | uncaught (msg : String)
deriving DecidableEq, Repr

/-- Whether an outcome is an escaped exception. -/
def isUncaught : RunOutcome → Bool
  | .uncaught _ => true
  | _ => false

/-- `run` of analyze-action: the try block, the catch handler (platform
failure marker plus terminal failure record), the finally block (whose own
throw overrides the pending return), and — on the normal path only, after the
finally block — the terminal finish record. -/
def run (env : RunEnv) : List Event × RunOutcome :=
  match runBody env with
  | (evs, BodyResult.abort) => (evs, RunOutcome.aborted)
  | (evs, BodyResult.thrown e statsAtThrow config) =>
    let stats := catchStats e statsAtThrow
    let catchEvs := [Event.setFailed e.message,
      Event.sendStatus (sendStatusReportRecord stats (some e))]
    match runFinally env config with
    | (fevs, .error m) => (evs ++ catchEvs ++ fevs, RunOutcome.uncaught m)
    | (fevs, .ok _) => (evs ++ catchEvs ++ fevs, RunOutcome.failed)
  | (evs, BodyResult.finished stats config) =>
    match runFinally env (some config) with
    | (fevs, .error m) => (evs ++ fevs, RunOutcome.uncaught m)
    | (fevs, .ok _) =>
      (evs ++ fevs ++ [Event.sendStatus (sendStatusReportRecord stats none)],
        RunOutcome.completed)

/-! ## Event predicates -/

/-- Whether an event is a status-record transmission. -/
def isSendEvent : Event → Bool
  | Event.sendStatus _ => true
  | _ => false

/-- Whether an event is debug-log output. -/
def isDebugEvent : Event → Bool
  | Event.debugLog _ _ => true
  | _ => false

/-- Whether an event transmits a finish record, i.e. a status record whose
status is not `"starting"`. -/
def isFinishSend : Event → Bool
  | Event.sendStatus r => if r.status = "starting" then false else true
  | _ => false

/-- Whether an event, if it transmits a status record, carries the stage name
`"finish"`. -/
def stageIsFinish : Event → Bool
  | Event.sendStatus r => if r.stage = "finish" then true else false
  | _ => true

/-- The status records transmitted by a list of events, in order. -/
def statusRecordsOf (evs : List Event) : List StatusRecord :=
  evs.filterMap fun e => match e with
    | Event.sendStatus r => some r
    | _ => none

/-- The languages for which an upload request was issued, in order. -/
def uploadedLangsOf (evs : List Event) : List String :=
  evs.filterMap fun e => match e with
    | Event.uploadDatabase l _ => some l
    | _ => none

theorem isFinishSend_false_of_not_send (e : Event) (h : isSendEvent e = false) :
    isFinishSend e = false := by
  cases e <;> simp_all [isSendEvent, isFinishSend]

theorem isSendEvent_false_of_debug (e : Event) (h : isDebugEvent e = true) :
    isSendEvent e = false := by
  cases e <;> simp_all [isSendEvent, isDebugEvent]

theorem statusRecordsOf_eq_nil (evs : List Event)
    (h : ∀ e ∈ evs, isSendEvent e = false) : statusRecordsOf evs = [] := by
  induction evs with
  | nil => rfl
  | cons e rest ih =>
    have he := h e (List.mem_cons_self _ _)
    have hrest := fun x hx => h x (List.mem_cons_of_mem _ hx)
    cases e <;> simp_all [statusRecordsOf, isSendEvent]

theorem statusRecordsOf_append (a b : List Event) :
    statusRecordsOf (a ++ b) = statusRecordsOf a ++ statusRecordsOf b := by
  simp [statusRecordsOf, List.filterMap_append]

/-! ## Database upload lemmas (claims C5 and C6) -/

theorem uploadLangLoop_ok (env : DbEnv) (langs : List String)
    (h : ∀ l ∈ langs,
      env.databaseBundle l = Except.ok () ∧ env.readFile l = Except.ok ()) :
    (uploadLangLoop env langs).2 = Except.ok () ∧
    uploadedLangsOf (uploadLangLoop env langs).1 = langs := by
  induction langs with
  | nil => simp [uploadLangLoop, uploadedLangsOf]
  | cons lang rest ih =>
    have hb := (h lang (List.mem_cons_self _ _)).1
    have hr := (h lang (List.mem_cons_self _ _)).2
    obtain ⟨ih1, ih2⟩ := ih fun l hl => h l (List.mem_cons_of_mem _ hl)
    refine ⟨?_, ?_⟩
    · simp [uploadLangLoop, hb, hr, ih1]
    · simp [uploadLangLoop, hb, hr, uploadedLangsOf] at ih2 ⊢
      exact ih2

theorem uploadLangLoop_no_send (env : DbEnv) (langs : List String) :
    ∀ e ∈ (uploadLangLoop env langs).1, isSendEvent e = false := by
  induction langs with
  | nil => simp [uploadLangLoop]
  | cons lang rest ih =>
    cases hb : env.databaseBundle lang with
    | error msg => simp [uploadLangLoop, hb, isSendEvent]
    | ok u =>
      cases hr : env.readFile lang with
      | error msg => simp [uploadLangLoop, hb, hr, isSendEvent]
      | ok u2 =>
        intro e he
        simp [uploadLangLoop, hb, hr] at he
        rcases he with h | h | h
        · subst h; rfl
        · subst h; rfl
        · exact ih e h

theorem uploadDatabases_no_send (env : DbEnv) (config : Config) :
    ∀ e ∈ (uploadDatabases env config).1, isSendEvent e = false := by
  intro e he
  unfold uploadDatabases at he
  split at he
  · simp at he
  · split at he
    · simp at he
    · split at he
      · simp at he
      · split at he
        · simp at he
          rcases he with h | h
          · subst h; rfl
          · exact uploadLangLoop_no_send env config.languages e h
        · simp at he
          subst he; rfl

/-- The fully-eligible environment with a failing per-language database
bundling step: the failure escapes `uploadDatabases`. -/
def dbEnvBundleFail : DbEnv :=
  { uploadDatabaseInput := "true"
    isDefaultBranch := true
    probe := ProbeOutcome.ok
    databaseBundle := fun _ => Except.error "bundle failed"
    readFile := fun _ => Except.ok ()
    uploadRequest := fun _ => Except.ok () }

/-- A configuration with one language, resolved against dotcom. -/
def configOneJava : Config :=
  { languages := ["java"], gitHubVariant := GitHubVariant.dotcom }

/-- Counterexample to claim C5 as stated: with every eligibility check
passing, a failure of the per-language database bundling step propagates out
of the database-upload operation instead of degrading to a logged skip. -/
theorem uploadDatabases_bundle_failure_escapes :
    (uploadDatabases dbEnvBundleFail configOneJava).2 =
      Except.error "bundle failed" ∧
    (uploadDatabases dbEnvBundleFail configOneJava).2 ≠ Except.ok () := by
  refine ⟨rfl, ?_⟩
  intro hcontra
  rw [show (uploadDatabases dbEnvBundleFail configOneJava).2 =
      Except.error "bundle failed" from rfl] at hcontra
  exact Except.noConfusion hcontra

/-- Claim C5 (amended): the database-upload operation completes normally for
every combination of failing eligibility checks and per-language
upload-request failures, provided each configured language's database
bundling and bundle-file read succeed; a bundling or bundle-read failure
propagates to the caller. -/
theorem uploadDatabases_never_throws (env : DbEnv) (config : Config)
    (h : ∀ l ∈ config.languages,
      env.databaseBundle l = Except.ok () ∧ env.readFile l = Except.ok ()) :
    (uploadDatabases env config).2 = Except.ok () := by
  unfold uploadDatabases
  split
  · rfl
  · split
    · rfl
    · split
      · rfl
      · split
        · exact (uploadLangLoop_ok env config.languages h).1
        · rfl

/-- Environment for the C5 witness: flag disabled and an upload-request
failure, with bundling succeeding. -/
def dbEnvBenign : DbEnv :=
  { uploadDatabaseInput := "true"
    isDefaultBranch := true
    probe := ProbeOutcome.ok
    databaseBundle := fun _ => Except.ok ()
    readFile := fun _ => Except.ok ()
    uploadRequest := fun _ => Except.error "HTTP 500" }

/-- Witness for C5 (amended) at a concrete input: all eligibility checks
pass, the only upload request fails, and the operation still completes
normally. -/
theorem uploadDatabases_never_throws_witness :
    (∀ l ∈ configOneJava.languages,
      dbEnvBenign.databaseBundle l = Except.ok () ∧
      dbEnvBenign.readFile l = Except.ok ()) ∧
    (uploadDatabases dbEnvBenign configOneJava).2 = Except.ok () :=
  ⟨fun _ _ => ⟨rfl, rfl⟩,
    uploadDatabases_never_throws dbEnvBenign configOneJava fun _ _ => ⟨rfl, rfl⟩⟩

/-- Claim C6: in the per-language upload loop, every configured language's
upload is attempted exactly once — the attempted-upload list equals the
configured language list — and the loop completes normally, for every
combination of per-language upload-request outcomes (bundling and
bundle-file reads succeeding). -/
theorem uploadLangLoop_attempts_all (env : DbEnv) (langs : List String)
    (h : ∀ l ∈ langs,
      env.databaseBundle l = Except.ok () ∧ env.readFile l = Except.ok ()) :
    uploadedLangsOf (uploadLangLoop env langs).1 = langs ∧
    (uploadLangLoop env langs).2 = Except.ok () := by
  obtain ⟨h1, h2⟩ := uploadLangLoop_ok env langs h
  exact ⟨h2, h1⟩

/-- Environment for the C6 witness: the first language's upload request
fails, the second succeeds. -/
def dbEnvFirstFails : DbEnv :=
  { uploadDatabaseInput := "true"
    isDefaultBranch := true
    probe := ProbeOutcome.ok
    databaseBundle := fun _ => Except.ok ()
    readFile := fun _ => Except.ok ()
    uploadRequest := fun l => if l = "java" then Except.error "HTTP 500" else Except.ok () }

/-- Witness for C6 at a concrete input: with two configured languages and the
first language's upload request failing, both languages are attempted, in
order, and the loop completes normally. -/
theorem uploadLangLoop_attempts_all_witness :
    (∀ l ∈ ["java", "go"],
      dbEnvFirstFails.databaseBundle l = Except.ok () ∧
      dbEnvFirstFails.readFile l = Except.ok ()) ∧
    (uploadedLangsOf (uploadLangLoop dbEnvFirstFails ["java", "go"]).1 =
        ["java", "go"] ∧
      (uploadLangLoop dbEnvFirstFails ["java", "go"]).2 = Except.ok ()) :=
  ⟨fun _ _ => ⟨rfl, rfl⟩,
    uploadLangLoop_attempts_all dbEnvFirstFails ["java", "go"]
      fun _ _ => ⟨rfl, rfl⟩⟩

/-! ## Debug walk lemmas -/

theorem walkLogFiles_all_debug (lang : String) (t : LogFs) :
    ∀ e ∈ (walkLogFiles lang t).1, isDebugEvent e = true := by
  induction t with
  | readError msg => simp [walkLogFiles]
  | nil => simp [walkLogFiles]
  | fileEntry name content rest ih =>
    cases content with
    | error m => simp [walkLogFiles, isDebugEvent]
    | ok c =>
      intro e he
      simp [walkLogFiles] at he
      rcases he with h | h
      · subst h; rfl
      · exact ih e h
  | dirEntry name sub rest ihsub ihrest =>
    intro e he
    unfold walkLogFiles at he
    rcases hws : walkLogFiles lang sub with ⟨evs, r⟩
    rw [hws] at he
    cases r with
    | error m =>
      simp at he
      exact ihsub e (by rw [hws]; exact he)
    | ok u =>
      simp at he
      rcases he with h | h
      · exact ihsub e (by rw [hws]; exact h)
      · exact ihrest e h

theorem debugWalkAll_all_debug (env : RunEnv) (langs : List String) :
    ∀ e ∈ (debugWalkAll env langs).1, isDebugEvent e = true := by
  induction langs with
  | nil => simp [debugWalkAll]
  | cons l rest ih =>
    intro e he
    unfold debugWalkAll at he
    rcases hw : walkLogFiles l (env.logFs l) with ⟨evs, r⟩
    rw [hw] at he
    cases r with
    | error m =>
      simp at he
      exact walkLogFiles_all_debug l (env.logFs l) e (by rw [hw]; exact he)
    | ok u =>
      simp at he
      rcases he with h | h
      · exact walkLogFiles_all_debug l (env.logFs l) e (by rw [hw]; exact h)
      · exact ih e h

theorem debugWalkAll_ok (env : RunEnv) (langs : List String)
    (h : ∀ l, (walkLogFiles l (env.logFs l)).2 = Except.ok ()) :
    (debugWalkAll env langs).2 = Except.ok () := by
  induction langs with
  | nil => rfl
  | cons l rest ih =>
    unfold debugWalkAll
    rcases hw : walkLogFiles l (env.logFs l) with ⟨evs, r⟩
    have hr : r = Except.ok () := by
      have := h l
      rw [hw] at this
      exact this
    subst hr
    simpa using ih

theorem runFinally_all_debug (env : RunEnv) (config : Option Config) :
    ∀ e ∈ (runFinally env config).1, isDebugEvent e = true := by
  cases config with
  | none => simp [runFinally]
  | some c =>
    by_cases hd : env.debugMode
    · simpa [runFinally, hd] using debugWalkAll_all_debug env c.languages
    · simp [runFinally, hd]

theorem runFinally_ok_of (env : RunEnv) (config : Option Config)
    (h : ∀ l, (walkLogFiles l (env.logFs l)).2 = Except.ok ()) :
    (runFinally env config).2 = Except.ok () := by
  cases config with
  | none => rfl
  | some c =>
    by_cases hd : env.debugMode
    · simpa [runFinally, hd] using debugWalkAll_ok env c.languages h
    · simp [runFinally, hd]

/-! ## The shape of the try block -/

theorem runBody_cases (env : RunEnv) :
    (env.sendContinue startingRecord = false ∧
      runBody env = ([Event.sendStatus startingRecord], BodyResult.abort)) ∨
    (env.sendContinue startingRecord = true ∧
      ∃ evs res, runBody env = (Event.sendStatus startingRecord :: evs, res) ∧
        (∀ e ∈ evs, isSendEvent e = false) ∧ res ≠ BodyResult.abort) := by
  by_cases hsc : env.sendContinue startingRecord = false
  · exact Or.inl ⟨hsc, by simp [runBody, hsc]⟩
  · have hsc' : env.sendContinue startingRecord = true := by
      revert hsc; cases env.sendContinue startingRecord <;> simp
    right
    refine ⟨hsc', ?_⟩
    cases hgc : env.getConfig with
    | none =>
      exact ⟨[], BodyResult.thrown (RunError.other configNotFoundMessage) none none,
        by simp [runBody, hsc', hgc], by simp, by simp⟩
    | some config =>
      cases hra : env.runAnalyze with
      | error e =>
        refine ⟨[Event.analyze], BodyResult.thrown e none (some config),
          by simp [runBody, hsc', hgc, hra], ?_, by simp⟩
        simp [isSendEvent]
      | ok queriesStats =>
        have hdb := uploadDatabases_no_send env.dbEnv config
        rcases hup : uploadDatabases env.dbEnv config with ⟨devs, dr⟩
        rw [hup] at hdb
        simp only at hdb
        by_cases hcl : env.cleanupLevel = some "none"
        · by_cases hui : env.uploadInput = "true"
          · cases hufa : env.uploadFromActions with
            | error m =>
              refine ⟨[Event.analyze, Event.setOutput config.languages,
                Event.uploadResults],
                BodyResult.thrown (RunError.other m) none (some config),
                by simp [runBody, hsc', hgc, hra, hcl, hui, hufa], ?_, by simp⟩
              simp [isSendEvent]
            | ok us =>
              cases dr with
              | error m =>
                refine ⟨[Event.analyze, Event.setOutput config.languages,
                  Event.uploadResults] ++ devs,
                  BodyResult.thrown (RunError.other m)
                    (some { queries := queriesStats, upload := some us })
                    (some config),
                  by simp [runBody, hsc', hgc, hra, hcl, hui, hufa, hup], ?_, by simp⟩
                intro e he
                rcases List.mem_append.mp he with h | h
                · simp at h
                  rcases h with h | h | h <;> (subst h; rfl)
                · exact hdb e h
              | ok u =>
                refine ⟨[Event.analyze, Event.setOutput config.languages,
                  Event.uploadResults] ++ devs,
                  BodyResult.finished
                    (some { queries := queriesStats, upload := some us }) config,
                  by simp [runBody, hsc', hgc, hra, hcl, hui, hufa, hup], ?_, by simp⟩
                intro e he
                rcases List.mem_append.mp he with h | h
                · simp at h
                  rcases h with h | h | h <;> (subst h; rfl)
                · exact hdb e h
          · cases dr with
            | error m =>
              refine ⟨[Event.analyze, Event.setOutput config.languages] ++ devs,
                BodyResult.thrown (RunError.other m)
                  (some { queries := queriesStats, upload := none }) (some config),
                by simp [runBody, hsc', hgc, hra, hcl, hui, hup], ?_, by simp⟩
              intro e he
              rcases List.mem_append.mp he with h | h
              · simp at h
                rcases h with h | h <;> (subst h; rfl)
              · exact hdb e h
            | ok u =>
              refine ⟨[Event.analyze, Event.setOutput config.languages] ++ devs,
                BodyResult.finished
                  (some { queries := queriesStats, upload := none }) config,
                by simp [runBody, hsc', hgc, hra, hcl, hui, hup], ?_, by simp⟩
              intro e he
              rcases List.mem_append.mp he with h | h
              · simp at h
                rcases h with h | h <;> (subst h; rfl)
              · exact hdb e h
        · cases hrc : env.runCleanup with
          | error m =>
            refine ⟨[Event.analyze, Event.cleanup (cleanupLevelValue env.cleanupLevel)],
              BodyResult.thrown (RunError.other m) none (some config),
              by simp [runBody, hsc', hgc, hra, hcl, hrc], ?_, by simp⟩
            simp [isSendEvent]
          | ok u0 =>
            by_cases hui : env.uploadInput = "true"
            · cases hufa : env.uploadFromActions with
              | error m =>
                refine ⟨[Event.analyze, Event.cleanup (cleanupLevelValue env.cleanupLevel),
                  Event.setOutput config.languages, Event.uploadResults],
                  BodyResult.thrown (RunError.other m) none (some config),
                  by simp [runBody, hsc', hgc, hra, hcl, hrc, hui, hufa], ?_, by simp⟩
                simp [isSendEvent]
              | ok us =>
                cases dr with
                | error m =>
                  refine ⟨[Event.analyze, Event.cleanup (cleanupLevelValue env.cleanupLevel),
                    Event.setOutput config.languages, Event.uploadResults] ++ devs,
                    BodyResult.thrown (RunError.other m)
                      (some { queries := queriesStats, upload := some us })
                      (some config),
                    by simp [runBody, hsc', hgc, hra, hcl, hrc, hui, hufa, hup], ?_, by simp⟩
                  intro e he
                  rcases List.mem_append.mp he with h | h
                  · simp at h
                    rcases h with h | h | h | h <;> (subst h; rfl)
                  · exact hdb e h
                | ok u =>
                  refine ⟨[Event.analyze, Event.cleanup (cleanupLevelValue env.cleanupLevel),
                    Event.setOutput config.languages, Event.uploadResults] ++ devs,
                    BodyResult.finished
                      (some { queries := queriesStats, upload := some us }) config,
                    by simp [runBody, hsc', hgc, hra, hcl, hrc, hui, hufa, hup], ?_, by simp⟩
                  intro e he
                  rcases List.mem_append.mp he with h | h
                  · simp at h
                    rcases h with h | h | h | h <;> (subst h; rfl)
                  · exact hdb e h
            · cases dr with
              | error m =>
                refine ⟨[Event.analyze, Event.cleanup (cleanupLevelValue env.cleanupLevel),
                  Event.setOutput config.languages] ++ devs,
                  BodyResult.thrown (RunError.other m)
                    (some { queries := queriesStats, upload := none }) (some config),
                  by simp [runBody, hsc', hgc, hra, hcl, hrc, hui, hup], ?_, by simp⟩
                intro e he
                rcases List.mem_append.mp he with h | h
                · simp at h
                  rcases h with h | h | h <;> (subst h; rfl)
                · exact hdb e h
              | ok u =>
                refine ⟨[Event.analyze, Event.cleanup (cleanupLevelValue env.cleanupLevel),
                  Event.setOutput config.languages] ++ devs,
                  BodyResult.finished
                    (some { queries := queriesStats, upload := none }) config,
                  by simp [runBody, hsc', hgc, hra, hcl, hrc, hui, hup], ?_, by simp⟩
                intro e he
                rcases List.mem_append.mp he with h | h
                · simp at h
                  rcases h with h | h | h <;> (subst h; rfl)
                · exact hdb e h

/-! ## Claims about the orchestrator -/

/-- Claim C4: if the initial starting status send signals abort, the run
returns immediately with the starting transmission as its only observable
event — the analysis engine, cleanup, result upload, and database upload are
never invoked, and no further status record is sent. -/
theorem run_abort_trace (env : RunEnv)
    (h : env.sendContinue startingRecord = false) :
    run env = ([Event.sendStatus startingRecord], RunOutcome.aborted) := by
  simp [run, runBody, h]

/-- Environment for the C4 witness: the starting send signals abort. -/
def envAbort : RunEnv :=
  { sendContinue := fun _ => false
    getConfig := some configOneJava
    runAnalyze := Except.ok { analyze_failure_language := none }
    cleanupLevel := none
    runCleanup := Except.ok ()
    uploadInput := "true"
    uploadFromActions := Except.ok { raw_upload_size_bytes := some 7 }
    dbEnv := dbEnvBenign
    debugMode := true
    logFs := fun _ => LogFs.nil }

/-- Witness for C4 at a concrete input: with an abort-signalling starting
send, the complete trace is the single starting transmission. -/
theorem run_abort_trace_witness :
    envAbort.sendContinue startingRecord = false ∧
    run envAbort = ([Event.sendStatus startingRecord], RunOutcome.aborted) :=
  ⟨rfl, run_abort_trace envAbort rfl⟩

/-- Claim C7: when the configuration provider returns no configuration, the
run fails with the error whose message names the expected prior init step, a
terminal failure status record carrying that message is emitted, and the
analysis engine is never invoked. -/
theorem run_config_missing (env : RunEnv)
    (h1 : env.sendContinue startingRecord = true)
    (h2 : env.getConfig = none) :
    run env = ([Event.sendStatus startingRecord,
        Event.setFailed configNotFoundMessage,
        Event.sendStatus (sendStatusReportRecord none
          (some (RunError.other configNotFoundMessage)))],
      RunOutcome.failed) ∧
    (sendStatusReportRecord none
      (some (RunError.other configNotFoundMessage))).status = "failure" ∧
    (sendStatusReportRecord none
      (some (RunError.other configNotFoundMessage))).errorMessage =
      some configNotFoundMessage ∧
    Event.analyze ∉ (run env).1 := by
  have hrun : run env = ([Event.sendStatus startingRecord,
      Event.setFailed configNotFoundMessage,
      Event.sendStatus (sendStatusReportRecord none
        (some (RunError.other configNotFoundMessage)))],
    RunOutcome.failed) := by
    simp [run, runBody, h1, h2, runFinally, catchStats, RunError.message]
  refine ⟨hrun, by decide, by decide, ?_⟩
  rw [hrun]
  decide

/-- Environment for the C7 witness: the configuration provider returns
nothing. -/
def envNoConfig : RunEnv :=
  { sendContinue := fun _ => true
    getConfig := none
    runAnalyze := Except.ok { analyze_failure_language := none }
    cleanupLevel := none
    runCleanup := Except.ok ()
    uploadInput := "true"
    uploadFromActions := Except.ok { raw_upload_size_bytes := some 7 }
    dbEnv := dbEnvBenign
    debugMode := true
    logFs := fun _ => LogFs.nil }

/-- Witness for C7 at a concrete input. -/
theorem run_config_missing_witness :
    envNoConfig.sendContinue startingRecord = true ∧
    envNoConfig.getConfig = none ∧
    (run envNoConfig = ([Event.sendStatus startingRecord,
        Event.setFailed configNotFoundMessage,
        Event.sendStatus (sendStatusReportRecord none
          (some (RunError.other configNotFoundMessage)))],
      RunOutcome.failed) ∧
    (sendStatusReportRecord none
      (some (RunError.other configNotFoundMessage))).status = "failure" ∧
    (sendStatusReportRecord none
      (some (RunError.other configNotFoundMessage))).errorMessage =
      some configNotFoundMessage ∧
    Event.analyze ∉ (run envNoConfig).1) :=
  ⟨rfl, rfl, run_config_missing envNoConfig rfl rfl⟩

theorem stageIsFinish_of_not_send (e : Event) (h : isSendEvent e = false) :
    stageIsFinish e = true := by
  cases e <;> simp_all [isSendEvent, stageIsFinish]

theorem stageIsFinish_record (s : Option AnalysisStatusReport)
    (err : Option RunError) :
    stageIsFinish (Event.sendStatus (sendStatusReportRecord s err)) = true := by
  simp [stageIsFinish, sendStatusReportRecord]

theorem sendStatusReportRecord_error_failure (s : Option AnalysisStatusReport)
    (e : RunError) : (sendStatusReportRecord s (some e)).status = "failure" := by
  simp [sendStatusReportRecord]

/-- Claim C8 (amended): provided no exception escapes the finally block's
debug-log walk, every run commits to exactly one terminal outcome — abort at
the starting milestone with the starting transmission as the entire trace, a
single failure record, or a single finish record on the normal path.  The
terminal record is the only finish record of the trace; on the normal path it
is the run's last event, while on the failure path it may be followed only by
debug-log output. -/
theorem run_terminal_outcome (env : RunEnv)
    (h : isUncaught (run env).2 = false) :
    ((run env).2 = RunOutcome.aborted ∧
      (run env).1 = [Event.sendStatus startingRecord]) ∨
    ((run env).2 = RunOutcome.failed ∧
      ∃ r pre post, (run env).1 = pre ++ Event.sendStatus r :: post ∧
        r.status = "failure" ∧ pre.filter isFinishSend = [] ∧
        (∀ e ∈ post, isDebugEvent e = true)) ∨
    ((run env).2 = RunOutcome.completed ∧
      ∃ r pre, (run env).1 = pre ++ [Event.sendStatus r] ∧
        (r.status = "success" ∨ r.status = "failure") ∧
        pre.filter isFinishSend = []) := by
  have hstart : isFinishSend (Event.sendStatus startingRecord) = false := by decide
  rcases runBody_cases env with ⟨hsc, hrb⟩ | ⟨hsc, evs, res, hrb, hnosend, hres⟩
  · left
    exact ⟨by simp [run, hrb], by simp [run, hrb]⟩
  · have hevs : evs.filter isFinishSend = [] :=
      List.filter_eq_nil_iff.mpr fun a ha => by
        simp [isFinishSend_false_of_not_send a (hnosend a ha)]
    cases res with
    | abort => exact absurd rfl hres
    | thrown e statsAtThrow config =>
      rcases hf : runFinally env config with ⟨fevs, fr⟩
      cases fr with
      | error m =>
        exfalso
        have hout : (run env).2 = RunOutcome.uncaught m := by
          simp [run, hrb, hf]
        rw [hout] at h
        simp [isUncaught] at h
      | ok u =>
        right; left
        have hrun : run env =
            ((Event.sendStatus startingRecord :: evs) ++
              [Event.setFailed (RunError.message e),
               Event.sendStatus
                 (sendStatusReportRecord (catchStats e statsAtThrow) (some e))] ++
              fevs,
             RunOutcome.failed) := by
          simp [run, hrb, hf]
        refine ⟨by rw [hrun],
          sendStatusReportRecord (catchStats e statsAtThrow) (some e),
          (Event.sendStatus startingRecord :: evs) ++
            [Event.setFailed (RunError.message e)],
          fevs, ?_, sendStatusReportRecord_error_failure _ e, ?_, ?_⟩
        · rw [hrun]
          simp
        · simp [List.filter_append, List.filter_cons, hstart, hevs, isFinishSend,
            startingRecord]
        · intro e' he'
          exact runFinally_all_debug env config e' (by rw [hf]; exact he')
    | finished stats config =>
      rcases hf : runFinally env (some config) with ⟨fevs, fr⟩
      cases fr with
      | error m =>
        exfalso
        have hout : (run env).2 = RunOutcome.uncaught m := by
          simp [run, hrb, hf]
        rw [hout] at h
        simp [isUncaught] at h
      | ok u =>
        right; right
        have hrun : run env =
            ((Event.sendStatus startingRecord :: evs) ++ fevs ++
              [Event.sendStatus (sendStatusReportRecord stats none)],
             RunOutcome.completed) := by
          simp [run, hrb, hf]
        have hfevs : fevs.filter isFinishSend = [] :=
          List.filter_eq_nil_iff.mpr fun a ha => by
            have hd := runFinally_all_debug env (some config) a (by rw [hf]; exact ha)
            simp [isFinishSend_false_of_not_send a (isSendEvent_false_of_debug a hd)]
        refine ⟨by rw [hrun], sendStatusReportRecord stats none,
          (Event.sendStatus startingRecord :: evs) ++ fevs, by rw [hrun], ?_, ?_⟩
        · cases hcb : (stats.bind fun s => s.queries.analyze_failure_language).isSome with
          | true =>
            right
            simp [sendStatusReportRecord, hcb]
          | false =>
            left
            simp [sendStatusReportRecord, hcb]
        · simp [List.filter_append, List.filter_cons, hstart, hevs, hfevs]

/-- Environment for the C8 witness: the starting send signals abort, so the
run's single terminal outcome is the abort case. -/
def envAbortForInv : RunEnv :=
  { sendContinue := fun _ => false
    getConfig := none
    runAnalyze := Except.ok { analyze_failure_language := none }
    cleanupLevel := none
    runCleanup := Except.ok ()
    uploadInput := "false"
    uploadFromActions := Except.ok { raw_upload_size_bytes := none }
    dbEnv := dbEnvBenign
    debugMode := false
    logFs := fun _ => LogFs.nil }

/-- Witness for C8 (amended) at a concrete input. -/
theorem run_terminal_outcome_witness :
    isUncaught (run envAbortForInv).2 = false ∧
    (((run envAbortForInv).2 = RunOutcome.aborted ∧
      (run envAbortForInv).1 = [Event.sendStatus startingRecord]) ∨
    ((run envAbortForInv).2 = RunOutcome.failed ∧
      ∃ r pre post, (run envAbortForInv).1 = pre ++ Event.sendStatus r :: post ∧
        r.status = "failure" ∧ pre.filter isFinishSend = [] ∧
        (∀ e ∈ post, isDebugEvent e = true)) ∨
    ((run envAbortForInv).2 = RunOutcome.completed ∧
      ∃ r pre, (run envAbortForInv).1 = pre ++ [Event.sendStatus r] ∧
        (r.status = "success" ∨ r.status = "failure") ∧
        pre.filter isFinishSend = [])) :=
  ⟨rfl, run_terminal_outcome envAbortForInv rfl⟩

/-- Claim C9 (amended): provided every filesystem read in the walked log
directories succeeds, the debug-mode diagnostic path affects neither the
run's outcome nor the emitted status records — the run behaves, in both
respects, exactly as it does with debug mode off. -/
theorem run_debug_frame (env : RunEnv)
    (h : ∀ l, (walkLogFiles l (env.logFs l)).2 = Except.ok ()) :
    statusRecordsOf (run env).1 =
      statusRecordsOf (run { env with debugMode := false }).1 ∧
    (run env).2 = (run { env with debugMode := false }).2 := by
  have hrb0 : runBody { env with debugMode := false } = runBody env := rfl
  have hfin0 : ∀ config, runFinally { env with debugMode := false } config =
      ([], Except.ok ()) := by
    intro config
    cases config with
    | none => rfl
    | some c => rfl
  rcases runBody_cases env with ⟨hsc, hrb⟩ | ⟨hsc, evs, res, hrb, hnosend, hres⟩
  · have h1 : run env = ([Event.sendStatus startingRecord], RunOutcome.aborted) := by
      simp [run, hrb]
    have h2 : run { env with debugMode := false } =
        ([Event.sendStatus startingRecord], RunOutcome.aborted) := by
      simp [run, hrb0, hrb]
    rw [h1, h2]
    exact ⟨rfl, rfl⟩
  · cases res with
    | abort => exact absurd rfl hres
    | thrown e statsAtThrow config =>
      have hok : (runFinally env config).2 = Except.ok () :=
        runFinally_ok_of env config h
      rcases hf : runFinally env config with ⟨fevs, fr⟩
      rw [hf] at hok
      simp only at hok
      subst hok
      have hfevs : statusRecordsOf fevs = [] :=
        statusRecordsOf_eq_nil fevs fun e' he' =>
          isSendEvent_false_of_debug e'
            (runFinally_all_debug env config e' (by rw [hf]; exact he'))
      have h1 : run env =
          ((Event.sendStatus startingRecord :: evs) ++
            [Event.setFailed (RunError.message e),
             Event.sendStatus
               (sendStatusReportRecord (catchStats e statsAtThrow) (some e))] ++
            fevs,
           RunOutcome.failed) := by
        simp [run, hrb, hf]
      have h2 : run { env with debugMode := false } =
          ((Event.sendStatus startingRecord :: evs) ++
            [Event.setFailed (RunError.message e),
             Event.sendStatus
               (sendStatusReportRecord (catchStats e statsAtThrow) (some e))] ++
            ([] : List Event),
           RunOutcome.failed) := by
        simp [run, hrb0, hrb, hfin0 config]
      rw [h1, h2]
      refine ⟨?_, rfl⟩
      simp only [statusRecordsOf, List.filterMap_cons, List.filterMap_append] at hfevs ⊢
      simp [hfevs]
    | finished stats config =>
      have hok : (runFinally env (some config)).2 = Except.ok () :=
        runFinally_ok_of env (some config) h
      rcases hf : runFinally env (some config) with ⟨fevs, fr⟩
      rw [hf] at hok
      simp only at hok
      subst hok
      have hfevs : statusRecordsOf fevs = [] :=
        statusRecordsOf_eq_nil fevs fun e' he' =>
          isSendEvent_false_of_debug e'
            (runFinally_all_debug env (some config) e' (by rw [hf]; exact he'))
      have h1 : run env =
          ((Event.sendStatus startingRecord :: evs) ++ fevs ++
            [Event.sendStatus (sendStatusReportRecord stats none)],
           RunOutcome.completed) := by
        simp [run, hrb, hf]
      have h2 : run { env with debugMode := false } =
          ((Event.sendStatus startingRecord :: evs) ++ ([] : List Event) ++
            [Event.sendStatus (sendStatusReportRecord stats none)],
           RunOutcome.completed) := by
        simp [run, hrb0, hrb, hfin0 (some config)]
      rw [h1, h2]
      refine ⟨?_, rfl⟩
      simp only [statusRecordsOf, List.filterMap_cons, List.filterMap_append] at hfevs ⊢
      simp [hfevs]

/-- Environment used by the uploader-skipping runs: upload-database flag
disabled. -/
def dbEnvSkip : DbEnv :=
  { uploadDatabaseInput := "false"
    isDefaultBranch := true
    probe := ProbeOutcome.ok
    databaseBundle := fun _ => Except.ok ()
    readFile := fun _ => Except.ok ()
    uploadRequest := fun _ => Except.ok () }

/-- Environment for the C9 counterexample: debug mode is on and the log
directory read throws. -/
def envDebugCrash : RunEnv :=
  { sendContinue := fun _ => true
    getConfig := some configOneJava
    runAnalyze := Except.ok { analyze_failure_language := none }
    cleanupLevel := some "none"
    runCleanup := Except.ok ()
    uploadInput := "false"
    uploadFromActions := Except.ok { raw_upload_size_bytes := none }
    dbEnv := dbEnvSkip
    debugMode := true
    logFs := fun _ => LogFs.readError "ENOENT" }

/-- Counterexample to claim C9 as stated: with a log directory whose read
throws, the debug path changes both the run's outcome (the exception escapes)
and the emitted status records (the final record is suppressed), so the
diagnostic path is not independent of the state of the walked filesystem. -/
theorem run_debug_affects_run :
    (run envDebugCrash).2 ≠
      (run { envDebugCrash with debugMode := false }).2 ∧
    statusRecordsOf (run envDebugCrash).1 ≠
      statusRecordsOf (run { envDebugCrash with debugMode := false }).1 := by
  constructor
  · decide
  · decide

/-- Environment for the C9 (amended) witness: debug mode on, empty log
directory. -/
def envDebugOkFs : RunEnv :=
  { sendContinue := fun _ => true
    getConfig := some configOneJava
    runAnalyze := Except.ok { analyze_failure_language := none }
    cleanupLevel := some "none"
    runCleanup := Except.ok ()
    uploadInput := "false"
    uploadFromActions := Except.ok { raw_upload_size_bytes := none }
    dbEnv := dbEnvSkip
    debugMode := true
    logFs := fun _ => LogFs.nil }

/-- Witness for C9 (amended) at a concrete input. -/
theorem run_debug_frame_witness :
    (∀ l, (walkLogFiles l (envDebugOkFs.logFs l)).2 = Except.ok ()) ∧
    (statusRecordsOf (run envDebugOkFs).1 =
        statusRecordsOf (run { envDebugOkFs with debugMode := false }).1 ∧
      (run envDebugOkFs).2 = (run { envDebugOkFs with debugMode := false }).2) :=
  ⟨fun _ => rfl, run_debug_frame envDebugOkFs fun _ => rfl⟩

/-- Claim C10: every status record the orchestrator emits — the starting
record included — carries the fixed stage name `"finish"`; the milestones are
distinguished only by the status field. -/
theorem run_stage_always_finish (env : RunEnv) :
    ((run env).1.all stageIsFinish) = true ∧
    startingRecord.stage = "finish" ∧ startingRecord.status = "starting" := by
  refine ⟨?_, rfl, rfl⟩
  rw [List.all_eq_true]
  intro e he
  rcases runBody_cases env with ⟨hsc, hrb⟩ | ⟨hsc, evs, res, hrb, hnosend, hres⟩
  · rw [show run env = ([Event.sendStatus startingRecord], RunOutcome.aborted)
      by simp [run, hrb]] at he
    simp at he
    subst he
    decide
  · cases res with
    | abort => exact absurd rfl hres
    | thrown e0 statsAtThrow config =>
      rcases hf : runFinally env config with ⟨fevs, fr⟩
      have htrace : (run env).1 =
          (Event.sendStatus startingRecord :: evs) ++
            [Event.setFailed (RunError.message e0),
             Event.sendStatus
               (sendStatusReportRecord (catchStats e0 statsAtThrow) (some e0))] ++
            fevs := by
        cases fr <;> simp [run, hrb, hf]
      rw [htrace] at he
      simp at he
      rcases he with he | he | he | he | he
      · subst he; decide
      · exact stageIsFinish_of_not_send e (hnosend e he)
      · subst he; rfl
      · subst he
        exact stageIsFinish_record (catchStats e0 statsAtThrow) (some e0)
      · exact stageIsFinish_of_not_send e
          (isSendEvent_false_of_debug e
            (runFinally_all_debug env config e (by rw [hf]; exact he)))
    | finished stats config =>
      rcases hf : runFinally env (some config) with ⟨fevs, fr⟩
      cases fr with
      | error m =>
        have htrace : (run env).1 =
            (Event.sendStatus startingRecord :: evs) ++ fevs := by
          simp [run, hrb, hf]
        rw [htrace] at he
        simp at he
        rcases he with he | he | he
        · subst he; decide
        · exact stageIsFinish_of_not_send e (hnosend e he)
        · exact stageIsFinish_of_not_send e
            (isSendEvent_false_of_debug e
              (runFinally_all_debug env (some config) e (by rw [hf]; exact he)))
      | ok u =>
        have htrace : (run env).1 =
            (Event.sendStatus startingRecord :: evs) ++ fevs ++
              [Event.sendStatus (sendStatusReportRecord stats none)] := by
          simp [run, hrb, hf]
        rw [htrace] at he
        simp at he
        rcases he with he | he | he | he
        · subst he; decide
        · exact stageIsFinish_of_not_send e (hnosend e he)
        · exact stageIsFinish_of_not_send e
            (isSendEvent_false_of_debug e
              (runFinally_all_debug env (some config) e (by rw [hf]; exact he)))
        · subst he
          exact stageIsFinish_record stats none

/-- Environment for the C8 counterexample: the starting send succeeds, every
stage completes, debug mode is on, and the log directory read throws inside
the finally block. -/
def envFinallyCrash : RunEnv :=
  { sendContinue := fun _ => true
    getConfig := some configOneJava
    runAnalyze := Except.ok { analyze_failure_language := none }
    cleanupLevel := some "none"
    runCleanup := Except.ok ()
    uploadInput := "false"
    uploadFromActions := Except.ok { raw_upload_size_bytes := none }
    dbEnv := dbEnvSkip
    debugMode := true
    logFs := fun _ => LogFs.readError "EACCES" }

/-- Counterexample to claim C8 as stated: a run can end with no terminal
record at all — the starting send succeeded (so this is not the early-return
case), yet the escaping finally-block exception suppresses the finish record,
so no failure record and no success-path finish record is ever emitted. -/
theorem run_no_terminal_outcome :
    envFinallyCrash.sendContinue startingRecord = true ∧
    (run envFinallyCrash).2 = RunOutcome.uncaught "EACCES" ∧
    (run envFinallyCrash).1.filter isFinishSend = [] := by
  exact ⟨rfl, rfl, rfl⟩
